import Mathlib

/-!
Shallow embedding of the soundcast native audio pipeline.

Sources embedded:
- `src/native/src/audio_buffer.cc` — `AudioRingBuffer` (lock-free SPSC ring
  buffer over `float` samples; samples are modelled as `Int`, their numeric
  type plays no role in the buffer logic).
- `src/native/src/whisper_worker.cc` — `AudioChunk`, `WhisperWorker`
  (mutex/condition-variable FIFO queue drained by one background thread).
- `src/native/src/whisper_addon.cc` — `WhisperSession` (N-API session
  wrapper around the external whisper context).

The source fixes the ring-buffer capacity to `BUFFER_SIZE = 480000`
(30 s @ 16 kHz); the embedding keeps the capacity as a `size` field so the
spec's properties, stated for a general capacity `C` (and `C = 10` in the
overflow test), can be expressed.  All cursor arithmetic is taken verbatim
from the source.  The backing `std::vector<float>` is modelled as a total
function `Nat → Int` (only indices below `size` are ever accessed), and
`std::memcpy` into a region becomes a pointwise function update over that
region.
-/

namespace Soundcast

/-- 30 seconds at 16 kHz, the capacity constant of the source. -/
def BUFFER_SIZE : Nat := 480000

/-- State of `AudioRingBuffer`: backing storage, capacity and both cursors.
`size` is the source's `BUFFER_SIZE`. -/
structure AudioRingBuffer where
  size : Nat
  buffer : Nat → Int
  writePos : Nat
  readPos : Nat

/-- The constructor `AudioRingBuffer()`: zeroed storage, both cursors 0. -/
def AudioRingBuffer.init (C : Nat) : AudioRingBuffer :=
  { size := C, buffer := fun _ => 0, writePos := 0, readPos := 0 }

/-- `std::memcpy(&buf[dst], src, src.length * sizeof(float))`: overwrite the
region `[dst, dst + src.length)` of `buf` with the elements of `src`. -/
def memcpy (buf : Nat → Int) (dst : Nat) (src : List Int) : Nat → Int :=
  fun j => if dst ≤ j ∧ j < dst + src.length then src.getD (j - dst) 0 else buf j

/-- The `available` computation at the top of `AudioRingBuffer::Write`. -/
def AudioRingBuffer.writeAvail (b : AudioRingBuffer) : Nat :=
  if b.readPos > b.writePos then b.readPos - b.writePos - 1
  else b.size - b.writePos + b.readPos - 1

/-- The (possibly truncated) length actually written by
`AudioRingBuffer::Write`: `if (available < length) length = available;`. -/
def AudioRingBuffer.writeLen (b : AudioRingBuffer) (data : List Int) : Nat :=
  if b.writeAvail < data.length then b.writeAvail else data.length

/-- The storage after the (up to) two `memcpy` calls of
`AudioRingBuffer::Write`: first part at `writePos`, wrapped remainder at 0. -/
def AudioRingBuffer.writeBuffer (b : AudioRingBuffer) (data : List Int) : Nat → Int :=
  let length := b.writeLen data
  let firstPart := min length (b.size - b.writePos)
  let buf1 := memcpy b.buffer b.writePos (data.take firstPart)
  if firstPart < length then memcpy buf1 0 ((data.take length).drop firstPart)
  else buf1

/-- `AudioRingBuffer::Write(data, length)`: truncates to the available space,
copies in up to two parts, publishes the new write cursor, and returns the
number of samples written.  The `data` list carries both the pointer and the
`length` argument of the source. -/
def AudioRingBuffer.Write (b : AudioRingBuffer) (data : List Int) :
    AudioRingBuffer × Nat :=
  if b.writeLen data = 0 then (b, 0)
  else
    ({ b with
        buffer := b.writeBuffer data,
        writePos := (b.writePos + b.writeLen data) % b.size },
      b.writeLen data)

/-- `AudioRingBuffer::Available()`: occupied sample count from the two
cursors.  `AudioRingBuffer::Read` computes its `available` with the identical
expression. -/
def AudioRingBuffer.Available (b : AudioRingBuffer) : Nat :=
  if b.writePos ≥ b.readPos then b.writePos - b.readPos
  else b.size - b.readPos + b.writePos

/-- The (possibly truncated) length actually read by `AudioRingBuffer::Read`:
`if (available < length) length = available;`. -/
def AudioRingBuffer.readLen (b : AudioRingBuffer) (length0 : Nat) : Nat :=
  if b.Available < length0 then b.Available else length0

/-- The samples `AudioRingBuffer::Read` copies into `dest`, in order: first
part from `readPos`, wrapped remainder from index 0. -/
def AudioRingBuffer.readOut (b : AudioRingBuffer) (length0 : Nat) : List Int :=
  let length := b.readLen length0
  let firstPart := min length (b.size - b.readPos)
  (List.range firstPart).map (fun k => b.buffer (b.readPos + k))
    ++ (List.range (length - firstPart)).map (fun k => b.buffer k)

/-- `AudioRingBuffer::Read(dest, length)`: reads up to `length` samples (only
what is available), publishes the new read cursor, and returns the samples
copied to `dest`. -/
def AudioRingBuffer.Read (b : AudioRingBuffer) (length0 : Nat) :
    AudioRingBuffer × List Int :=
  if b.readLen length0 = 0 then (b, [])
  else
    ({ b with readPos := (b.readPos + b.readLen length0) % b.size },
      b.readOut length0)

/-- `AudioRingBuffer::Clear()`: reset both cursors to 0. -/
def AudioRingBuffer.Clear (b : AudioRingBuffer) : AudioRingBuffer :=
  { b with writePos := 0, readPos := 0 }

/-- Well-formedness of a ring-buffer state: positive capacity and both
cursors inside `[0, size)` — exactly what the source maintains. -/
def AudioRingBuffer.WF (b : AudioRingBuffer) : Prop :=
  0 < b.size ∧ b.writePos < b.size ∧ b.readPos < b.size

instance (b : AudioRingBuffer) : Decidable b.WF := by
  unfold AudioRingBuffer.WF; infer_instance

/-- Abstraction function: the FIFO sequence of occupied samples, read cursor
first. -/
def AudioRingBuffer.contents (b : AudioRingBuffer) : List Int :=
  (List.range b.Available).map (fun k => b.buffer ((b.readPos + k) % b.size))

/-! Operation sequences over one ring buffer, and the abstract FIFO queue
they should simulate.  A `write` carries the sample list handed to `Write`,
a `read` the requested length, `clear` is `Clear()`. -/

inductive RBOp where
  | write (data : List Int)
  | read (n : Nat)
  | clear
deriving DecidableEq

/-- Run a sequence of operations against the ring buffer, collecting the
sample list returned by each `Read` in call order. -/
def runRB (b : AudioRingBuffer) : List RBOp → AudioRingBuffer × List (List Int)
  | [] => (b, [])
  | RBOp.write d :: rest => runRB (b.Write d).1 rest
  | RBOp.read n :: rest =>
      let p := b.Read n
      let q := runRB p.1 rest
      (q.1, p.2 :: q.2)
  | RBOp.clear :: rest => runRB b.Clear rest

/-- The ideal FIFO queue: writes append, a read of `n` yields the first `n`
queued samples and removes them, `clear` empties the queue. -/
def runFIFO (q : List Int) : List RBOp → List (List Int)
  | [] => []
  | RBOp.write d :: rest => runFIFO (q ++ d) rest
  | RBOp.read n :: rest => q.take n :: runFIFO (q.drop n) rest
  | RBOp.clear :: rest => runFIFO [] rest

/-- The side condition of the spec's FIFO property: along the whole trace the
outstanding (written-but-not-yet-read) sample count never exceeds `C - 1`,
so no write is ever truncated. -/
def fitsCapacity (C : Nat) (q : List Int) : List RBOp → Bool
  | [] => true
  | RBOp.write d :: rest =>
      decide (q.length + d.length ≤ C - 1) && fitsCapacity C (q ++ d) rest
  | RBOp.read n :: rest => fitsCapacity C (q.drop n) rest
  | RBOp.clear :: rest => fitsCapacity C [] rest

/-! Embedding of `src/native/src/whisper_worker.cc`.

The worker is a single background thread started by the constructor, a
`std::queue<AudioChunk>` guarded by a mutex/condition variable, and a
`stopRequested` flag.  The embedding is an interleaving model at the
granularity of one loop iteration of `ProcessQueue`: every pop happens with
the queue lock held, so one iteration (wake, stop check, pop, unlocked
processing of the popped chunk) is atomic with respect to `EnqueueAudio`
and `Stop`.  Two ghost fields record what is not directly readable from the
C++ object state: `threadAlive` (the worker thread has not yet returned)
and `processed` (the chunks dispatched, in order, to the per-chunk
processing step). -/

/-- `AudioChunk`: an owned copy of the samples plus the capture timestamp. -/
structure AudioChunk where
  data : List Int
  timestamp : Nat
deriving DecidableEq

/-- State of `WhisperWorker` plus the two ghost observation fields. -/
structure WhisperWorker where
  audioQueue : List AudioChunk
  stopRequested : Bool
  threadAlive : Bool
  processed : List AudioChunk
deriving DecidableEq

/-- The constructor `WhisperWorker()`: empty queue, `stopRequested = false`,
worker thread started. -/
def WhisperWorker.start : WhisperWorker :=
  { audioQueue := [], stopRequested := false, threadAlive := true,
    processed := [] }

/-- One iteration of the `ProcessQueue` loop, taken when the thread is alive:
after the condition-variable wait (queue non-empty or stop requested),
`if (stopRequested) break;` exits the thread — before the queue is examined —
otherwise one chunk is popped from the head under the lock and processed.
With an empty queue and no stop request the thread is still blocked in
`wait`, so the state is unchanged. -/
def WhisperWorker.workerIter (s : WhisperWorker) : WhisperWorker :=
  if s.threadAlive then
    if s.stopRequested then { s with threadAlive := false }
    else
      match s.audioQueue with
      | [] => s
      | c :: rest =>
          { s with audioQueue := rest, processed := s.processed ++ [c] }
  else s

/-- `WhisperWorker::EnqueueAudio(data, length, timestamp)`: construct an
`AudioChunk` copy and append it at the tail of the queue under the lock
(then `notify_one`).  There is no stop check: the queue grows even after the
worker has exited. -/
def WhisperWorker.EnqueueAudio (s : WhisperWorker) (data : List Int)
    (timestamp : Nat) : WhisperWorker :=
  { s with audioQueue := s.audioQueue ++ [⟨data, timestamp⟩] }

/-- `WhisperWorker::Stop()`: set `stopRequested` under the lock,
`notify_all`, and join the worker thread if it is still joinable.  Because
the flag is written under the same mutex that guards the loop's stop check,
the next iteration the thread takes after the flag is set is the exiting
one; the join is therefore modelled as that single exiting iteration. -/
def WhisperWorker.Stop (s : WhisperWorker) : WhisperWorker :=
  let s1 := { s with stopRequested := true }
  if s1.threadAlive then s1.workerIter else s1

/-- `WhisperWorker::GetQueueSize()`. -/
def WhisperWorker.GetQueueSize (s : WhisperWorker) : Nat :=
  s.audioQueue.length

/-- External events of the worker system: a producer call to
`EnqueueAudio`, one worker-loop iteration, or a call to `Stop`. -/
inductive WorkerEvent where
  | enqueue (data : List Int) (timestamp : Nat)
  | wake
  | stop
deriving DecidableEq

/-- Run a sequence of events against the worker state. -/
def runWorker (s : WhisperWorker) : List WorkerEvent → WhisperWorker
  | [] => s
  | WorkerEvent.enqueue d t :: rest => runWorker (s.EnqueueAudio d t) rest
  | WorkerEvent.wake :: rest => runWorker s.workerIter rest
  | WorkerEvent.stop :: rest => runWorker s.Stop rest

/-- The chunks enqueued by a trace, in call order. -/
def enqueuedChunks : List WorkerEvent → List AudioChunk
  | [] => []
  | WorkerEvent.enqueue d t :: rest => ⟨d, t⟩ :: enqueuedChunks rest
  | WorkerEvent.wake :: rest => enqueuedChunks rest
  | WorkerEvent.stop :: rest => enqueuedChunks rest

/-! Embedding of `src/native/src/whisper_addon.cc`.

`WhisperSession` wraps an external `whisper_context*`; the context itself is
opaque to this repository, so it is modelled as an abstract token.  The
claims concern the null-pointer discipline of `Destroy` and the parameters
`Transcribe` passes to the external `whisper_full` call. -/

/-- Opaque stand-in for the external `struct whisper_context`. -/
structure WhisperContext where
  id : Nat
deriving DecidableEq

/-- `WhisperSession`: the wrapped context pointer (`none` = `nullptr`) and
the model path stored by the constructor. -/
structure WhisperSession where
  ctx : Option WhisperContext
  modelPath : String
deriving DecidableEq

/-- `WhisperSession::Destroy`: `if (ctx) { whisper_free(ctx); ctx = nullptr; }`.
The returned flag records whether `whisper_free` was invoked. -/
def WhisperSession.Destroy (s : WhisperSession) : WhisperSession × Bool :=
  match s.ctx with
  | some _ => ({ s with ctx := none }, true)
  | none => (s, false)

/-- The `whisper_full_params` fields that `Transcribe` sets before invoking
the external `whisper_full`. -/
structure WhisperFullParams where
  print_progress : Bool
  print_special : Bool
  print_realtime : Bool
  print_timestamps : Bool
  translate : Bool
  n_threads : Int
  language : String
deriving DecidableEq

/-- The options object of `Transcribe`: a field is `some v` when the
property is present with a value of the checked type (`IsString` for
`language`, `IsNumber` for `threads`), `none` otherwise. -/
structure TranscribeOptions where
  language : Option String
  threads : Option Int
deriving DecidableEq

/-- Errors thrown by `WhisperSession::Transcribe` before reaching
`whisper_full`. -/
inductive TranscribeError where
  | modelNotLoaded
deriving DecidableEq

/-- `Napi::Number::Int32Value()` on an integral numeric value: conversion to
a 32-bit signed integer with wrapping (ECMAScript `ToInt32`), i.e. reduction
modulo `2^32` into `[-2^31, 2^31)`. -/
def int32Wrap (t : Int) : Int :=
  (t + 2147483648) % 4294967296 - 2147483648

/-- `WhisperSession::Transcribe(audio, options?)` up to the `whisper_full`
call: rejects when no model is loaded, then builds `wparams` — fixed flag
assignments, `n_threads = 4`, `language = "en"`; a well-typed `language`
field overrides the default verbatim, a well-typed `threads` field is
stored through `Int32Value()` into the 32-bit `n_threads` (wrapping
conversion) — and hands `whisper_full` the parameters and the audio length.
The inference itself is external, so the embedding returns the parameters
of that call. -/
def WhisperSession.Transcribe (s : WhisperSession) (audio : List Int)
    (opts : Option TranscribeOptions) :
    Except TranscribeError (WhisperFullParams × Nat) :=
  match s.ctx with
  | none => Except.error TranscribeError.modelNotLoaded
  | some _ =>
    let wparams0 : WhisperFullParams :=
      { print_progress := false, print_special := false,
        print_realtime := false, print_timestamps := true,
        translate := false, n_threads := 4, language := "en" }
    let language : String :=
      match opts with
      | some o =>
          match o.language with
          | some l => l
          | none => "en"
      | none => "en"
    let wparams1 :=
      match opts with
      | some o =>
          match o.threads with
          | some t => { wparams0 with n_threads := int32Wrap t }
          | none => wparams0
      | none => wparams0
    Except.ok ({ wparams1 with language := language }, audio.length)

/-! Concrete states used by the test-style claims and witnesses. -/

/-- A live worker with a stop request pending and one chunk still queued. -/
def workerStopPending : WhisperWorker :=
  { audioQueue := [⟨[1], 1⟩], stopRequested := true, threadAlive := true,
    processed := [] }

/-- A live worker with no stop request and one queued chunk. -/
def workerLive : WhisperWorker :=
  { audioQueue := [⟨[2], 5⟩], stopRequested := false, threadAlive := true,
    processed := [] }

/-- A session whose model has been loaded. -/
def sessionLoaded : WhisperSession :=
  { ctx := some ⟨0⟩, modelPath := String.mk [] }

/-! Arithmetic helpers for the modular cursor reasoning. -/

theorem mod_two_cases (a n : Nat) (h : a < 2 * n) :
    a % n = if a < n then a else a - n := by
  split_ifs with hlt
  · exact Nat.mod_eq_of_lt hlt
  · rw [Nat.mod_eq_sub_mod (by omega), Nat.mod_eq_of_lt (by omega)]

theorem mod_window_inj (a k1 k2 n : Nat) (h1 : k1 < n) (h2 : k2 < n)
    (h : (a + k1) % n = (a + k2) % n) : k1 = k2 := by
  have hm : k1 ≡ k2 [MOD n] := Nat.ModEq.add_left_cancel' a h
  unfold Nat.ModEq at hm
  rwa [Nat.mod_eq_of_lt h1, Nat.mod_eq_of_lt h2] at hm

/-! List helpers. -/

theorem getD_take (l : List Int) (n k : Nat) (h : k < n) :
    (l.take n).getD k 0 = l.getD k 0 := by
  rw [List.getD_eq_getElem?_getD, List.getD_eq_getElem?_getD,
    List.getElem?_take, if_pos h]

theorem getD_drop_take (l : List Int) (n m k : Nat) (h : m + k < n) :
    ((l.take n).drop m).getD k 0 = l.getD (m + k) 0 := by
  rw [List.getD_eq_getElem?_getD, List.getD_eq_getElem?_getD,
    List.getElem?_drop, List.getElem?_take, if_pos h]

theorem take_eq_range_map (l : List Int) (n : Nat) (h : n ≤ l.length) :
    l.take n = (List.range n).map (fun k => l.getD k 0) := by
  apply List.ext_getElem
  · simp [List.length_take]; omega
  · intro i h1 h2
    have hi : i < n := by simpa using h2
    have hil : i < l.length := by omega
    rw [List.getElem_take]
    rw [List.getElem_map]
    rw [List.getElem_range]
    rw [List.getD_eq_getElem?_getD, List.getElem?_eq_getElem hil]
    rfl

theorem range_map_append (f : Nat → Int) (m n : Nat) :
    (List.range (m + n)).map f
      = (List.range m).map f ++ (List.range n).map (fun k => f (m + k)) := by
  rw [List.range_add, List.map_append, List.map_map]
  rfl

/-! Basic facts about the ring-buffer state. -/

theorem AudioRingBuffer.contents_length (b : AudioRingBuffer) :
    b.contents.length = b.Available := by
  simp [AudioRingBuffer.contents]

theorem AudioRingBuffer.Available_lt (b : AudioRingBuffer) (hb : b.WF) :
    b.Available < b.size := by
  obtain ⟨h0, hw, hr⟩ := hb
  unfold AudioRingBuffer.Available
  split_ifs <;> omega

theorem AudioRingBuffer.writeAvail_eq (b : AudioRingBuffer) (hb : b.WF) :
    b.writeAvail = b.size - 1 - b.Available := by
  obtain ⟨h0, hw, hr⟩ := hb
  unfold AudioRingBuffer.writeAvail AudioRingBuffer.Available
  split_ifs <;> omega

theorem AudioRingBuffer.writeLen_eq (b : AudioRingBuffer) (data : List Int)
    (hb : b.WF) :
    b.writeLen data = min data.length (b.size - 1 - b.Available) := by
  unfold AudioRingBuffer.writeLen
  rw [b.writeAvail_eq hb]
  split_ifs <;> omega

theorem AudioRingBuffer.init_contents (C : Nat) :
    (AudioRingBuffer.init C).contents = [] := by
  simp [AudioRingBuffer.contents, AudioRingBuffer.Available, AudioRingBuffer.init]

theorem AudioRingBuffer.init_WF (C : Nat) (hC : 0 < C) :
    (AudioRingBuffer.init C).WF := by
  exact ⟨hC, hC, hC⟩

/-! Pointwise characterisation of `memcpy`. -/

theorem memcpy_in (buf : Nat → Int) (dst : Nat) (src : List Int) (j : Nat)
    (h1 : dst ≤ j) (h2 : j < dst + src.length) :
    memcpy buf dst src j = src.getD (j - dst) 0 := by
  unfold memcpy
  rw [if_pos ⟨h1, h2⟩]

theorem memcpy_out (buf : Nat → Int) (dst : Nat) (src : List Int) (j : Nat)
    (h : j < dst ∨ dst + src.length ≤ j) :
    memcpy buf dst src j = buf j := by
  unfold memcpy
  rw [if_neg (by omega)]

/-! Characterisation of `Write`. -/

theorem AudioRingBuffer.writeLen_le_length (b : AudioRingBuffer) (d : List Int) :
    b.writeLen d ≤ d.length := by
  unfold AudioRingBuffer.writeLen
  split_ifs <;> omega

theorem AudioRingBuffer.writeLen_le_avail (b : AudioRingBuffer) (d : List Int)
    (hb : b.WF) : b.writeLen d ≤ b.size - 1 - b.Available := by
  rw [b.writeLen_eq d hb]
  omega

theorem AudioRingBuffer.Write_eq_zero (b : AudioRingBuffer) (d : List Int)
    (hz : b.writeLen d = 0) : b.Write d = (b, 0) := by
  unfold AudioRingBuffer.Write
  rw [if_pos hz]

theorem AudioRingBuffer.Write_eq_pos (b : AudioRingBuffer) (d : List Int)
    (hz : b.writeLen d ≠ 0) :
    b.Write d =
      ({ b with
          buffer := b.writeBuffer d,
          writePos := (b.writePos + b.writeLen d) % b.size },
        b.writeLen d) := by
  unfold AudioRingBuffer.Write
  rw [if_neg hz]

theorem AudioRingBuffer.writeBuffer_at (b : AudioRingBuffer) (d : List Int)
    (hb : b.WF) (k : Nat) (hk : k < b.writeLen d) :
    b.writeBuffer d ((b.writePos + k) % b.size) = d.getD k 0 := by
  obtain ⟨h0, hw, hr⟩ := hb
  have hA : b.Available < b.size := b.Available_lt ⟨h0, hw, hr⟩
  have hlen1 : b.writeLen d ≤ d.length := b.writeLen_le_length d
  have hlen2 : b.writeLen d ≤ b.size - 1 - b.Available :=
    b.writeLen_le_avail d ⟨h0, hw, hr⟩
  have hlenC : b.writeLen d < b.size := by omega
  unfold AudioRingBuffer.writeBuffer
  set len := b.writeLen d with hlen
  set fp := min len (b.size - b.writePos) with hfp
  have hfp_le_len : fp ≤ len := by omega
  have htake_len : (d.take fp).length = fp := by
    rw [List.length_take]; omega
  by_cases hwrap : fp < len
  · rw [if_pos hwrap]
    have hfp_eq : fp = b.size - b.writePos := by omega
    have hs_len : ((d.take len).drop fp).length = len - fp := by
      rw [List.length_drop, List.length_take]; omega
    by_cases hk1 : k < fp
    · have hmod : (b.writePos + k) % b.size = b.writePos + k :=
        Nat.mod_eq_of_lt (by omega)
      rw [hmod]
      rw [memcpy_out _ _ _ _ (by omega)]
      rw [memcpy_in _ _ _ _ (by omega) (by omega)]
      have hsub : b.writePos + k - b.writePos = k := by omega
      rw [hsub, getD_take _ _ _ hk1]
    · have hmod : (b.writePos + k) % b.size = b.writePos + k - b.size := by
        rw [mod_two_cases _ _ (by omega), if_neg (by omega)]
      rw [hmod]
      rw [memcpy_in _ _ _ _ (by omega) (by omega)]
      have hsub : b.writePos + k - b.size - 0 = k - fp := by omega
      rw [hsub, getD_drop_take _ _ _ _ (by omega)]
      have hk2 : fp + (k - fp) = k := by omega
      rw [hk2]
  · rw [if_neg hwrap]
    have hmod : (b.writePos + k) % b.size = b.writePos + k :=
      Nat.mod_eq_of_lt (by omega)
    rw [hmod]
    rw [memcpy_in _ _ _ _ (by omega) (by omega)]
    have hsub : b.writePos + k - b.writePos = k := by omega
    rw [hsub, getD_take _ _ _ (by omega)]

theorem AudioRingBuffer.writeBuffer_untouched (b : AudioRingBuffer)
    (d : List Int) (hb : b.WF) (j : Nat) (hj : j < b.size)
    (hout : ∀ k, k < b.writeLen d → (b.writePos + k) % b.size ≠ j) :
    b.writeBuffer d j = b.buffer j := by
  obtain ⟨h0, hw, hr⟩ := hb
  have hA : b.Available < b.size := b.Available_lt ⟨h0, hw, hr⟩
  have hlen1 : b.writeLen d ≤ d.length := b.writeLen_le_length d
  have hlen2 : b.writeLen d ≤ b.size - 1 - b.Available :=
    b.writeLen_le_avail d ⟨h0, hw, hr⟩
  unfold AudioRingBuffer.writeBuffer
  set len := b.writeLen d with hlen
  set fp := min len (b.size - b.writePos) with hfp
  have hfp_le_len : fp ≤ len := by omega
  have htake_len : (d.take fp).length = fp := by
    rw [List.length_take]; omega
  have hout1 : ¬ (b.writePos ≤ j ∧ j < b.writePos + fp) := by
    rintro ⟨hj1, hj2⟩
    apply hout (j - b.writePos) (by omega)
    rw [Nat.mod_eq_of_lt (by omega)]
    omega
  by_cases hwrap : fp < len
  · rw [if_pos hwrap]
    have hfp_eq : fp = b.size - b.writePos := by omega
    have hs_len : ((d.take len).drop fp).length = len - fp := by
      rw [List.length_drop, List.length_take]; omega
    have hout2 : ¬ j < len - fp := by
      intro hj2
      apply hout (fp + j) (by omega)
      have hC : b.writePos + (fp + j) = b.size + j := by omega
      rw [hC, Nat.add_mod_left, Nat.mod_eq_of_lt hj]
    rw [memcpy_out _ _ _ _ (by omega)]
    rw [memcpy_out _ _ _ _ (by omega)]
  · rw [if_neg hwrap]
    rw [memcpy_out _ _ _ _ (by omega)]

theorem AudioRingBuffer.avail_add_mod (b : AudioRingBuffer) (hb : b.WF)
    (k : Nat) :
    (b.readPos + b.Available + k) % b.size = (b.writePos + k) % b.size := by
  obtain ⟨h0, hw, hr⟩ := hb
  unfold AudioRingBuffer.Available
  split_ifs with hcase
  · congr 1
    omega
  · have hC : b.readPos + (b.size - b.readPos + b.writePos) + k
        = b.size + (b.writePos + k) := by omega
    rw [hC, Nat.add_mod_left]

theorem AudioRingBuffer.Available_write_record (b : AudioRingBuffer)
    (f : Nat → Int) (len : Nat) (hb : b.WF)
    (hlen : len ≤ b.size - 1 - b.Available) :
    ({ b with buffer := f, writePos := (b.writePos + len) % b.size }
        : AudioRingBuffer).Available = b.Available + len := by
  obtain ⟨h0, hw, hr⟩ := hb
  have hA : b.Available < b.size := b.Available_lt ⟨h0, hw, hr⟩
  have hmod : (b.writePos + len) % b.size
      = if b.writePos + len < b.size then b.writePos + len
        else b.writePos + len - b.size := mod_two_cases _ _ (by omega)
  unfold AudioRingBuffer.Available at hA hlen ⊢
  dsimp only
  rw [hmod]
  split_ifs at hA hlen ⊢ <;> omega

theorem AudioRingBuffer.Available_read_record (b : AudioRingBuffer)
    (len : Nat) (hb : b.WF) (hlen : len ≤ b.Available) :
    ({ b with readPos := (b.readPos + len) % b.size }
        : AudioRingBuffer).Available = b.Available - len := by
  obtain ⟨h0, hw, hr⟩ := hb
  have hA : b.Available < b.size := b.Available_lt ⟨h0, hw, hr⟩
  have hmod : (b.readPos + len) % b.size
      = if b.readPos + len < b.size then b.readPos + len
        else b.readPos + len - b.size := mod_two_cases _ _ (by omega)
  unfold AudioRingBuffer.Available at hA hlen ⊢
  dsimp only
  rw [hmod]
  split_ifs at hA hlen ⊢ <;> omega

theorem AudioRingBuffer.Write_count (b : AudioRingBuffer) (d : List Int)
    (hb : b.WF) :
    (b.Write d).2 = min d.length (b.size - 1 - b.Available) := by
  rw [← b.writeLen_eq d hb]
  by_cases hz : b.writeLen d = 0
  · rw [b.Write_eq_zero d hz, hz]
  · rw [b.Write_eq_pos d hz]

theorem AudioRingBuffer.Write_WF (b : AudioRingBuffer) (d : List Int)
    (hb : b.WF) : (b.Write d).1.WF ∧ (b.Write d).1.size = b.size := by
  obtain ⟨h0, hw, hr⟩ := hb
  by_cases hz : b.writeLen d = 0
  · rw [b.Write_eq_zero d hz]
    exact ⟨⟨h0, hw, hr⟩, rfl⟩
  · rw [b.Write_eq_pos d hz]
    exact ⟨⟨h0, Nat.mod_lt _ h0, hr⟩, rfl⟩

theorem AudioRingBuffer.Write_contents (b : AudioRingBuffer) (d : List Int)
    (hb : b.WF) :
    (b.Write d).1.contents = b.contents ++ d.take ((b.Write d).2) := by
  have hb' := hb
  obtain ⟨h0, hw, hr⟩ := hb'
  have hA : b.Available < b.size := b.Available_lt hb
  have hlen1 : b.writeLen d ≤ d.length := b.writeLen_le_length d
  have hlen2 : b.writeLen d ≤ b.size - 1 - b.Available := b.writeLen_le_avail d hb
  by_cases hz : b.writeLen d = 0
  · rw [b.Write_eq_zero d hz]
    simp
  · rw [b.Write_eq_pos d hz]
    dsimp only
    unfold AudioRingBuffer.contents
    dsimp only
    rw [b.Available_write_record (b.writeBuffer d) (b.writeLen d) hb hlen2]
    rw [range_map_append]
    congr 1
    · apply List.map_congr_left
      intro k hk
      rw [List.mem_range] at hk
      apply b.writeBuffer_untouched d hb _ (Nat.mod_lt _ h0)
      intro k2 hk2 heq
      rw [← b.avail_add_mod hb k2] at heq
      have h1 : b.readPos + b.Available + k2
          = b.readPos + (b.Available + k2) := by omega
      rw [h1] at heq
      have h2 := mod_window_inj b.readPos (b.Available + k2) k b.size
        (by omega) (by omega) heq
      omega
    · rw [take_eq_range_map d (b.writeLen d) hlen1]
      apply List.map_congr_left
      intro k hk
      rw [List.mem_range] at hk
      have h1 : b.readPos + (b.Available + k)
          = b.readPos + b.Available + k := by omega
      rw [h1, b.avail_add_mod hb k]
      exact b.writeBuffer_at d hb k hk

/-! Characterisation of `Read`. -/

theorem AudioRingBuffer.readLen_eq (b : AudioRingBuffer) (n : Nat) :
    b.readLen n = min n b.Available := by
  unfold AudioRingBuffer.readLen
  split_ifs <;> omega

theorem AudioRingBuffer.Read_eq_zero (b : AudioRingBuffer) (n : Nat)
    (hz : b.readLen n = 0) : b.Read n = (b, []) := by
  unfold AudioRingBuffer.Read
  rw [if_pos hz]

theorem AudioRingBuffer.Read_eq_pos (b : AudioRingBuffer) (n : Nat)
    (hz : b.readLen n ≠ 0) :
    b.Read n =
      ({ b with readPos := (b.readPos + b.readLen n) % b.size },
        b.readOut n) := by
  unfold AudioRingBuffer.Read
  rw [if_neg hz]

theorem AudioRingBuffer.contents_take (b : AudioRingBuffer) (n : Nat) :
    b.contents.take n = b.contents.take (min n b.Available) := by
  rcases Nat.le_total n b.Available with h | h
  · rw [Nat.min_eq_left h]
  · rw [Nat.min_eq_right h]
    rw [List.take_of_length_le (by rw [b.contents_length]; omega)]
    rw [List.take_of_length_le (by rw [b.contents_length])]

theorem AudioRingBuffer.contents_drop (b : AudioRingBuffer) (n : Nat) :
    b.contents.drop n = b.contents.drop (min n b.Available) := by
  rcases Nat.le_total n b.Available with h | h
  · rw [Nat.min_eq_left h]
  · rw [Nat.min_eq_right h]
    rw [List.drop_of_length_le (by rw [b.contents_length]; omega)]
    rw [List.drop_of_length_le (by rw [b.contents_length])]

theorem AudioRingBuffer.readOut_eq (b : AudioRingBuffer) (n : Nat)
    (hb : b.WF) : b.readOut n = b.contents.take n := by
  obtain ⟨h0, hw, hr⟩ := hb
  have hA : b.Available < b.size := b.Available_lt ⟨h0, hw, hr⟩
  have hlen : b.readLen n = min n b.Available := b.readLen_eq n
  rw [b.contents_take n]
  unfold AudioRingBuffer.contents AudioRingBuffer.readOut
  dsimp only
  rw [← List.map_take, List.take_range, min_assoc, min_self, ← hlen]
  set len := b.readLen n with hlendef
  set fp := min len (b.size - b.readPos) with hfp
  have hfp_le : fp ≤ len := by omega
  have hsplit : len = fp + (len - fp) := by omega
  conv_rhs => rw [hsplit]
  rw [range_map_append]
  congr 1
  · apply List.map_congr_left
    intro k hk
    rw [List.mem_range] at hk
    rw [Nat.mod_eq_of_lt (by omega)]
  · apply List.map_congr_left
    intro k hk
    rw [List.mem_range] at hk
    have hfp_eq : fp = b.size - b.readPos := by omega
    have hC : b.readPos + (fp + k) = b.size + k := by omega
    rw [hC, Nat.add_mod_left, Nat.mod_eq_of_lt (by omega)]

theorem AudioRingBuffer.Read_out (b : AudioRingBuffer) (n : Nat)
    (hb : b.WF) : (b.Read n).2 = b.contents.take n := by
  by_cases hz : b.readLen n = 0
  · rw [b.Read_eq_zero n hz]
    have hmin : min n b.Available = 0 := by
      rw [← b.readLen_eq n, hz]
    rw [b.contents_take n, hmin]
    simp
  · rw [b.Read_eq_pos n hz]
    exact b.readOut_eq n hb

theorem AudioRingBuffer.Read_WF (b : AudioRingBuffer) (n : Nat)
    (hb : b.WF) : (b.Read n).1.WF ∧ (b.Read n).1.size = b.size := by
  obtain ⟨h0, hw, hr⟩ := hb
  by_cases hz : b.readLen n = 0
  · rw [b.Read_eq_zero n hz]
    exact ⟨⟨h0, hw, hr⟩, rfl⟩
  · rw [b.Read_eq_pos n hz]
    exact ⟨⟨h0, hw, Nat.mod_lt _ h0⟩, rfl⟩

theorem AudioRingBuffer.Read_contents (b : AudioRingBuffer) (n : Nat)
    (hb : b.WF) : (b.Read n).1.contents = b.contents.drop n := by
  have hb' := hb
  obtain ⟨h0, hw, hr⟩ := hb'
  have hA : b.Available < b.size := b.Available_lt hb
  have hlen : b.readLen n = min n b.Available := b.readLen_eq n
  by_cases hz : b.readLen n = 0
  · rw [b.Read_eq_zero n hz]
    rw [b.contents_drop n, ← hlen, hz]
    simp
  · rw [b.Read_eq_pos n hz]
    dsimp only
    rw [b.contents_drop n, ← hlen]
    unfold AudioRingBuffer.contents
    dsimp only
    rw [b.Available_read_record (b.readLen n) hb (by omega)]
    set len := b.readLen n with hlendef
    rw [← List.map_drop]
    have hsplit : b.Available = len + (b.Available - len) := by omega
    conv_rhs => rw [hsplit]
    rw [List.range_add]
    rw [List.drop_left' (List.length_range len), List.map_map]
    apply List.map_congr_left
    intro k hk
    rw [List.mem_range] at hk
    show b.buffer (((b.readPos + len) % b.size + k) % b.size)
      = b.buffer ((b.readPos + (len + k)) % b.size)
    rw [Nat.mod_add_mod, Nat.add_assoc]

/-! Characterisation of `Clear`. -/

theorem AudioRingBuffer.Clear_WF (b : AudioRingBuffer) (hb : b.WF) :
    b.Clear.WF ∧ b.Clear.size = b.size := by
  obtain ⟨h0, hw, hr⟩ := hb
  exact ⟨⟨h0, h0, h0⟩, rfl⟩

theorem AudioRingBuffer.Clear_contents (b : AudioRingBuffer) :
    b.Clear.contents = [] := by
  simp [AudioRingBuffer.contents, AudioRingBuffer.Clear, AudioRingBuffer.Available]

theorem runRB_sim (ops : List RBOp) :
    ∀ b : AudioRingBuffer, b.WF →
      fitsCapacity b.size b.contents ops = true →
      (runRB b ops).2 = runFIFO b.contents ops
      ∧ (runRB b ops).1.WF ∧ (runRB b ops).1.size = b.size := by
  induction ops with
  | nil =>
      intro b hb _
      exact ⟨rfl, hb, rfl⟩
  | cons op rest ih =>
      intro b hb hfit
      cases op with
      | write d =>
          rw [fitsCapacity, Bool.and_eq_true, decide_eq_true_eq] at hfit
          obtain ⟨hcap, hfit⟩ := hfit
          rw [b.contents_length] at hcap
          have hcount : (b.Write d).2 = d.length := by
            rw [b.Write_count d hb]
            omega
          have hcont : (b.Write d).1.contents = b.contents ++ d := by
            rw [b.Write_contents d hb, hcount, List.take_of_length_le (le_refl _)]
          obtain ⟨hwf, hsz⟩ := b.Write_WF d hb
          have hfit2 : fitsCapacity (b.Write d).1.size (b.Write d).1.contents rest
              = true := by
            rw [hsz, hcont]
            exact hfit
          obtain ⟨hout, hwf2, hsz2⟩ := ih (b.Write d).1 hwf hfit2
          rw [runRB, runFIFO]
          exact ⟨by rw [hout, hcont], hwf2, by rw [hsz2, hsz]⟩
      | read n =>
          rw [fitsCapacity] at hfit
          have hcont : (b.Read n).1.contents = b.contents.drop n :=
            b.Read_contents n hb
          obtain ⟨hwf, hsz⟩ := b.Read_WF n hb
          have hfit2 : fitsCapacity (b.Read n).1.size (b.Read n).1.contents rest
              = true := by
            rw [hsz, hcont]
            exact hfit
          obtain ⟨hout, hwf2, hsz2⟩ := ih (b.Read n).1 hwf hfit2
          rw [runRB, runFIFO]
          dsimp only
          refine ⟨?_, hwf2, by rw [hsz2, hsz]⟩
          rw [hout, hcont, b.Read_out n hb]
      | clear =>
          rw [fitsCapacity] at hfit
          obtain ⟨hwf, hsz⟩ := b.Clear_WF hb
          have hfit2 : fitsCapacity b.Clear.size b.Clear.contents rest = true := by
            rw [hsz, b.Clear_contents]
            exact hfit
          obtain ⟨hout, hwf2, hsz2⟩ := ih b.Clear hwf hfit2
          rw [runRB, runFIFO]
          exact ⟨by rw [hout, b.Clear_contents], hwf2, by rw [hsz2, hsz]⟩

/-! Preservation of well-formedness along arbitrary operation sequences
(no capacity side condition). -/

theorem runRB_WF (ops : List RBOp) :
    ∀ b : AudioRingBuffer, b.WF →
      (runRB b ops).1.WF ∧ (runRB b ops).1.size = b.size := by
  induction ops with
  | nil =>
      intro b hb
      exact ⟨hb, rfl⟩
  | cons op rest ih =>
      intro b hb
      cases op with
      | write d =>
          obtain ⟨hwf, hsz⟩ := b.Write_WF d hb
          obtain ⟨hwf2, hsz2⟩ := ih _ hwf
          rw [runRB]
          exact ⟨hwf2, by rw [hsz2, hsz]⟩
      | read n =>
          obtain ⟨hwf, hsz⟩ := b.Read_WF n hb
          obtain ⟨hwf2, hsz2⟩ := ih _ hwf
          rw [runRB]
          dsimp only
          exact ⟨hwf2, by rw [hsz2, hsz]⟩
      | clear =>
          obtain ⟨hwf, hsz⟩ := b.Clear_WF hb
          obtain ⟨hwf2, hsz2⟩ := ih _ hwf
          rw [runRB]
          exact ⟨hwf2, by rw [hsz2, hsz]⟩

/-! Facts about the worker model. -/

theorem WhisperWorker.Stop_state (s : WhisperWorker) :
    s.Stop = { s with stopRequested := true, threadAlive := false } := by
  cases s with
  | mk q stop alive proc =>
      cases alive <;> simp [WhisperWorker.Stop, WhisperWorker.workerIter]

theorem WhisperWorker.workerIter_inv (s : WhisperWorker) :
    s.workerIter.processed ++ s.workerIter.audioQueue
      = s.processed ++ s.audioQueue := by
  cases s with
  | mk q stop alive proc =>
      cases alive <;> cases stop <;> cases q <;>
        simp [WhisperWorker.workerIter]

theorem runWorker_dead (evts : List WorkerEvent) :
    ∀ s : WhisperWorker, s.threadAlive = false →
      (runWorker s evts).processed = s.processed
      ∧ (runWorker s evts).threadAlive = false := by
  induction evts with
  | nil =>
      intro s h
      exact ⟨rfl, h⟩
  | cons e rest ih =>
      intro s h
      cases e with
      | enqueue d t =>
          rw [runWorker]
          exact ih _ h
      | wake =>
          rw [runWorker]
          have hiter : s.workerIter = s := by
            unfold WhisperWorker.workerIter
            rw [h]
            rw [if_neg (by simp)]
          rw [hiter]
          exact ih s h
      | stop =>
          rw [runWorker, WhisperWorker.Stop_state]
          exact ih _ rfl

theorem runWorker_order (evts : List WorkerEvent) :
    ∀ s : WhisperWorker,
      (runWorker s evts).processed ++ (runWorker s evts).audioQueue
        = (s.processed ++ s.audioQueue) ++ enqueuedChunks evts := by
  induction evts with
  | nil =>
      intro s
      rw [runWorker, enqueuedChunks, List.append_nil]
  | cons e rest ih =>
      intro s
      cases e with
      | enqueue d t =>
          rw [runWorker, enqueuedChunks, ih]
          show s.processed ++ (s.audioQueue ++ [⟨d, t⟩])
              ++ enqueuedChunks rest = _
          simp
      | wake =>
          rw [runWorker, enqueuedChunks, ih, s.workerIter_inv]
      | stop =>
          rw [runWorker, enqueuedChunks, ih, WhisperWorker.Stop_state]

/-! The claims. -/

/-- C1: for a ring buffer of capacity `C`, for every sequence of
single-producer `Write` calls and single-consumer `Read` calls in which the
outstanding (written-but-not-yet-read) sample count never exceeds `C - 1`,
every `Read` returns exactly the samples previously written, in FIFO sample
order, with no corruption when a write or read wraps past the physical end
of the storage: the run of the ring buffer produces the same read outputs
as the ideal FIFO queue. -/
theorem C1_ring_buffer_fifo (C : Nat) (ops : List RBOp) (hC : 0 < C)
    (hfit : fitsCapacity C [] ops = true) :
    (runRB (AudioRingBuffer.init C) ops).2 = runFIFO [] ops := by
  have hfit2 : fitsCapacity (AudioRingBuffer.init C).size
      (AudioRingBuffer.init C).contents ops = true := by
    rw [AudioRingBuffer.init_contents]
    exact hfit
  have h := runRB_sim ops (AudioRingBuffer.init C)
    (AudioRingBuffer.init_WF C hC) hfit2
  rw [h.1, AudioRingBuffer.init_contents]

/-- Witness for C1 at capacity 4 with a second write that wraps past the
physical end of storage. -/
theorem C1_ring_buffer_fifo_witness :
    (0 < 4
      ∧ fitsCapacity 4 []
          [RBOp.write [1, 2, 3], RBOp.read 2, RBOp.write [10, 20], RBOp.read 3]
          = true)
    ∧ (runRB (AudioRingBuffer.init 4)
          [RBOp.write [1, 2, 3], RBOp.read 2, RBOp.write [10, 20], RBOp.read 3]).2
        = runFIFO []
          [RBOp.write [1, 2, 3], RBOp.read 2, RBOp.write [10, 20], RBOp.read 3] :=
  ⟨⟨by decide, by decide⟩,
    C1_ring_buffer_fifo 4
      [RBOp.write [1, 2, 3], RBOp.read 2, RBOp.write [10, 20], RBOp.read 3]
      (by decide) (by decide)⟩

/-- C2: for every `Write(data, length)` on a buffer holding `occupied`
samples, the free space is `available = capacity - 1 - occupied`; when
`length > available` the call copies exactly the leading `available`
samples, drops the rest, and returns `available` (no error is raised — the
function is total, and the caller sees the loss only in the count). -/
theorem C2_write_truncates (b : AudioRingBuffer) (d : List Int) (hb : b.WF)
    (hover : b.size - 1 - b.Available < d.length) :
    b.writeAvail = b.size - 1 - b.Available
    ∧ (b.Write d).2 = b.size - 1 - b.Available
    ∧ (b.Write d).1.contents
      = b.contents ++ d.take (b.size - 1 - b.Available) := by
  have hmin : min d.length (b.size - 1 - b.Available)
      = b.size - 1 - b.Available := by omega
  refine ⟨b.writeAvail_eq hb, ?_, ?_⟩
  · rw [b.Write_count d hb, hmin]
  · rw [b.Write_contents d hb, b.Write_count d hb, hmin]

/-- Witness for C2: capacity 3 (2 usable slots), empty buffer, a 3-sample
write keeps only the first 2 samples and reports 2. -/
theorem C2_write_truncates_witness :
    ((AudioRingBuffer.init 3).WF
      ∧ (AudioRingBuffer.init 3).size - 1 - (AudioRingBuffer.init 3).Available
          < ([5, 6, 7] : List Int).length)
    ∧ ((AudioRingBuffer.init 3).writeAvail
          = (AudioRingBuffer.init 3).size - 1 - (AudioRingBuffer.init 3).Available
        ∧ ((AudioRingBuffer.init 3).Write [5, 6, 7]).2
          = (AudioRingBuffer.init 3).size - 1 - (AudioRingBuffer.init 3).Available
        ∧ ((AudioRingBuffer.init 3).Write [5, 6, 7]).1.contents
          = (AudioRingBuffer.init 3).contents
            ++ ([5, 6, 7] : List Int).take
                ((AudioRingBuffer.init 3).size - 1
                  - (AudioRingBuffer.init 3).Available)) :=
  ⟨⟨by decide, by decide⟩,
    C2_write_truncates (AudioRingBuffer.init 3) [5, 6, 7] (by decide) (by decide)⟩

/-- C5: with capacity `C = 10` (9 usable slots), starting empty, writing 9
samples and then 5 more yields a second-write return value of 0 while
`Available()` still reports 9. -/
theorem C5_overflow_truncation :
    ((AudioRingBuffer.init 10).Write [1, 2, 3, 4, 5, 6, 7, 8, 9]).2 = 9
    ∧ (((AudioRingBuffer.init 10).Write [1, 2, 3, 4, 5, 6, 7, 8, 9]).1.Write
        [10, 11, 12, 13, 14]).2 = 0
    ∧ (((AudioRingBuffer.init 10).Write [1, 2, 3, 4, 5, 6, 7, 8, 9]).1.Write
        [10, 11, 12, 13, 14]).1.Available = 9 := by
  refine ⟨by decide, by decide, by decide⟩

/-- C6: after every sequence of `Write`, `Read` and `Clear` operations from
the initial state, both cursors lie in `[0, C)` and the occupied count
computed from them is at most `C - 1`. -/
theorem C6_cursor_invariant (C : Nat) (ops : List RBOp) (hC : 0 < C) :
    (runRB (AudioRingBuffer.init C) ops).1.writePos < C
    ∧ (runRB (AudioRingBuffer.init C) ops).1.readPos < C
    ∧ (runRB (AudioRingBuffer.init C) ops).1.Available ≤ C - 1 := by
  obtain ⟨hwf, hsz⟩ :=
    runRB_WF ops (AudioRingBuffer.init C) (AudioRingBuffer.init_WF C hC)
  have hA := (runRB (AudioRingBuffer.init C) ops).1.Available_lt hwf
  obtain ⟨h0, hw, hr⟩ := hwf
  have hszC : (runRB (AudioRingBuffer.init C) ops).1.size = C := hsz
  exact ⟨by omega, by omega, by omega⟩

/-- Witness for C6 at capacity 3 with an overflowing write, a read and a
clear in the trace. -/
theorem C6_cursor_invariant_witness :
    0 < 3
    ∧ ((runRB (AudioRingBuffer.init 3)
          [RBOp.write [1, 2, 3, 4], RBOp.read 1, RBOp.clear,
            RBOp.write [7]]).1.writePos < 3
      ∧ (runRB (AudioRingBuffer.init 3)
          [RBOp.write [1, 2, 3, 4], RBOp.read 1, RBOp.clear,
            RBOp.write [7]]).1.readPos < 3
      ∧ (runRB (AudioRingBuffer.init 3)
          [RBOp.write [1, 2, 3, 4], RBOp.read 1, RBOp.clear,
            RBOp.write [7]]).1.Available ≤ 3 - 1) :=
  ⟨by decide,
    C6_cursor_invariant 3
      [RBOp.write [1, 2, 3, 4], RBOp.read 1, RBOp.clear, RBOp.write [7]]
      (by decide)⟩

/-- C3 counterexample: in a woken state with a stop request and a non-empty
queue, the loop body exits the thread (the chunk is not popped), so "exits
if and only if stop has been requested and the queue is empty" is false at
`workerStopPending`: `if (stopRequested) break;` precedes the queue check. -/
theorem C3_counterexample :
    ¬ ((workerStopPending.workerIter.threadAlive = false)
        ↔ (workerStopPending.stopRequested = true
            ∧ workerStopPending.audioQueue = [])) := by
  decide

/-- C3 (amended): a woken worker-loop iteration exits if and only if stop
has been requested — regardless of whether the queue is empty, and without
popping or processing any chunk; when no stop is requested it pops exactly
one chunk from the head of a non-empty queue and processes it, and with an
empty queue (still blocked in the wait) it leaves the state unchanged. -/
theorem C3_worker_loop (s : WhisperWorker) (halive : s.threadAlive = true) :
    (s.workerIter.threadAlive = false ↔ s.stopRequested = true)
    ∧ (s.stopRequested = true →
        s.workerIter.audioQueue = s.audioQueue
        ∧ s.workerIter.processed = s.processed)
    ∧ (s.stopRequested = false → ∀ c rest, s.audioQueue = c :: rest →
        s.workerIter
          = { s with audioQueue := rest, processed := s.processed ++ [c] })
    ∧ (s.stopRequested = false → s.audioQueue = [] → s.workerIter = s) := by
  obtain ⟨q, stop, alive, proc⟩ := s
  cases alive with
  | false => exact Bool.noConfusion halive
  | true =>
      cases stop with
      | true =>
          refine ⟨by simp [WhisperWorker.workerIter], ?_, ?_, ?_⟩
          · intro _
            exact ⟨rfl, rfl⟩
          · intro h
            exact Bool.noConfusion h
          · intro h
            exact Bool.noConfusion h
      | false =>
          cases q with
          | nil =>
              refine ⟨by simp [WhisperWorker.workerIter], ?_, ?_, ?_⟩
              · intro h
                exact Bool.noConfusion h
              · intro _ c rest hq
                exact List.noConfusion hq
              · intro _ _
                simp [WhisperWorker.workerIter]
          | cons c0 rest0 =>
              refine ⟨by simp [WhisperWorker.workerIter], ?_, ?_, ?_⟩
              · intro h
                exact Bool.noConfusion h
              · intro _ c rest hq
                obtain ⟨h1, h2⟩ := List.cons.inj hq
                subst h1
                subst h2
                simp [WhisperWorker.workerIter]
              · intro _ hq
                exact List.noConfusion hq

/-- Witness for C3 (amended) at `workerLive`: one queued chunk, no stop
request. -/
theorem C3_worker_loop_witness :
    workerLive.threadAlive = true
    ∧ ((workerLive.workerIter.threadAlive = false
          ↔ workerLive.stopRequested = true)
      ∧ (workerLive.stopRequested = true →
          workerLive.workerIter.audioQueue = workerLive.audioQueue
          ∧ workerLive.workerIter.processed = workerLive.processed)
      ∧ (workerLive.stopRequested = false →
          ∀ c rest, workerLive.audioQueue = c :: rest →
          workerLive.workerIter
            = { workerLive with
                audioQueue := rest,
                processed := workerLive.processed ++ [c] })
      ∧ (workerLive.stopRequested = false → workerLive.audioQueue = [] →
          workerLive.workerIter = workerLive)) :=
  ⟨rfl, C3_worker_loop workerLive rfl⟩

/-- C4: for every event trace from a freshly constructed worker, the chunks
dispatched to the processing step followed by the chunks still queued are
exactly the enqueued chunks in enqueue order — so dispatch happens in
exactly the enqueue order, one chunk at a time, however far the worker
falls behind. -/
theorem C4_fifo_dispatch (evts : List WorkerEvent) :
    (runWorker WhisperWorker.start evts).processed
        ++ (runWorker WhisperWorker.start evts).audioQueue
      = enqueuedChunks evts
    ∧ (runWorker WhisperWorker.start evts).processed
      = (enqueuedChunks evts).take
          (runWorker WhisperWorker.start evts).processed.length := by
  have h := runWorker_order evts WhisperWorker.start
  have h0 : WhisperWorker.start.processed ++ WhisperWorker.start.audioQueue
      ++ enqueuedChunks evts = enqueuedChunks evts := rfl
  rw [h0] at h
  refine ⟨h, ?_⟩
  rw [← h]
  exact (List.take_left _ _).symm

/-- C7: once `Stop()` has returned (the flag is set and the worker thread
has been joined), no further chunk is ever dispatched to the processing
step, whatever events — including further `EnqueueAudio` calls — follow. -/
theorem C7_no_dispatch_after_stop (s : WhisperWorker)
    (evts : List WorkerEvent) :
    (runWorker s.Stop evts).processed = s.processed := by
  have hdead : s.Stop.threadAlive = false := by
    rw [WhisperWorker.Stop_state]
  have h := runWorker_dead evts s.Stop hdead
  rw [h.1, WhisperWorker.Stop_state]

/-- C8: `Stop()` is idempotent — a second call after the worker thread has
already exited changes nothing. -/
theorem C8_stop_idempotent (s : WhisperWorker) : s.Stop.Stop = s.Stop := by
  simp [WhisperWorker.Stop_state]

/-- C9: `Destroy` leaves the context null, and a second `Destroy` on the
already-freed session performs no action (`whisper_free` not invoked, no
double free) and leaves the session state unchanged. -/
theorem C9_destroy_idempotent (s : WhisperSession) :
    (s.Destroy).1.ctx = none
    ∧ (s.Destroy).1.Destroy = ((s.Destroy).1, false) := by
  cases s with
  | mk ctx path =>
      cases ctx <;> simp [WhisperSession.Destroy]

/-- C10 counterexample: the claim says a numeric `threads` field replaces
the default for that invocation, but the source stores it through
`Int32Value()` (a wrapping 32-bit conversion, `whisper_addon.cc:114`): a
numeric `threads` field of `2^31` yields `n_threads = -2^31`, not `2^31`. -/
theorem C10_counterexample :
    sessionLoaded.Transcribe [3, 4]
        (some { language := none, threads := some (2147483648 : Int) })
      = Except.ok ({ print_progress := false, print_special := false, print_realtime := false, print_timestamps := true, translate := false, n_threads := -2147483648, language := "en" }, 2)
    ∧ ¬ (sessionLoaded.Transcribe [3, 4]
          (some { language := none, threads := some (2147483648 : Int) })
        = Except.ok ({ print_progress := false, print_special := false, print_realtime := false, print_timestamps := true, translate := false, n_threads := 2147483648, language := "en" }, 2)) := by
  have hval : sessionLoaded.Transcribe [3, 4]
      (some { language := none, threads := some (2147483648 : Int) })
    = Except.ok ({ print_progress := false, print_special := false, print_realtime := false, print_timestamps := true, translate := false, n_threads := -2147483648, language := "en" }, 2) := rfl
  refine ⟨hval, fun h => ?_⟩
  rw [hval, Except.ok.injEq, Prod.mk.injEq] at h
  have h3 := congrArg WhisperFullParams.n_threads h.1
  exact absurd h3 (by decide)

/-- C10 (amended): with a loaded model, `Transcribe` runs with language
"en" and 4 threads when no options object is supplied or when the object
lacks the fields; a well-typed `language` field replaces the default
verbatim, and a well-typed numeric `threads` field replaces the default
after the wrapping 32-bit `Int32Value()` conversion — hence verbatim
exactly when the value lies in `[-2^31, 2^31)`. -/
theorem C10_transcribe_defaults (s : WhisperSession) (c : WhisperContext)
    (audio : List Int) (hctx : s.ctx = some c) :
    (s.Transcribe audio none
      = Except.ok ({ print_progress := false, print_special := false, print_realtime := false, print_timestamps := true, translate := false, n_threads := 4, language := "en" }, audio.length))
    ∧ (s.Transcribe audio (some { language := none, threads := none })
      = Except.ok ({ print_progress := false, print_special := false, print_realtime := false, print_timestamps := true, translate := false, n_threads := 4, language := "en" }, audio.length))
    ∧ (∀ (l : String) (t : Int),
        s.Transcribe audio (some { language := some l, threads := some t })
          = Except.ok ({ print_progress := false, print_special := false, print_realtime := false, print_timestamps := true, translate := false, n_threads := int32Wrap t, language := l }, audio.length))
    ∧ (∀ t : Int, -2147483648 ≤ t → t < 2147483648 → int32Wrap t = t) := by
  refine ⟨?_, ?_, ?_, ?_⟩
  · unfold WhisperSession.Transcribe
    rw [hctx]
  · unfold WhisperSession.Transcribe
    rw [hctx]
  · intro l t
    unfold WhisperSession.Transcribe
    rw [hctx]
  · intro t h1 h2
    unfold int32Wrap
    have hmod : (t + 2147483648) % 4294967296 = t + 2147483648 :=
      Int.emod_eq_of_lt (by omega) (by omega)
    omega

/-- Witness for C10 at `sessionLoaded`. -/
theorem C10_transcribe_defaults_witness :
    sessionLoaded.ctx = some ⟨0⟩
    ∧ ((sessionLoaded.Transcribe [3, 4] none
        = Except.ok ({ print_progress := false, print_special := false, print_realtime := false, print_timestamps := true, translate := false, n_threads := 4, language := "en" }, ([3, 4] : List Int).length))
      ∧ (sessionLoaded.Transcribe [3, 4]
            (some { language := none, threads := none })
          = Except.ok ({ print_progress := false, print_special := false, print_realtime := false, print_timestamps := true, translate := false, n_threads := 4, language := "en" }, ([3, 4] : List Int).length))
      ∧ (∀ (l : String) (t : Int),
          sessionLoaded.Transcribe [3, 4]
              (some { language := some l, threads := some t })
            = Except.ok ({ print_progress := false, print_special := false, print_realtime := false, print_timestamps := true, translate := false, n_threads := int32Wrap t, language := l }, ([3, 4] : List Int).length))
      ∧ (∀ t : Int, -2147483648 ≤ t → t < 2147483648 → int32Wrap t = t)) :=
  ⟨rfl, C10_transcribe_defaults sessionLoaded ⟨0⟩ [3, 4] rfl⟩

end Soundcast
